import Mathlib

/-!
Verification of `search_collapse_builder.go` (package `elastic`).

A shallow embedding of the `CollapseBuilder` type, its constructor, its three
setters and its `Source` method, followed by theorems about them.

Modelling conventions:

* a Go `interface{}` value is a `Value`; a `map[string]interface{}` is an
  association list with unique keys, written to with `GoMap.set`;
* a Go `error` is an `Option Error` (`none` is the nil error), and a Go result
  pair `(interface{}, error)` is a Lean pair;
* a method with a pointer receiver takes the receiver's state and returns the
  state it leaves behind: the setters return the builder they were called on,
  `Source` returns its result pair together with the builder;
* where the sharing of the backing array of `innerHits` with the caller matters,
  the builder is `CollapseBuilderMem`, with a slice header and a memory of cells;
* a Go `int` is an `Int` (no arithmetic is done on it).
-/

set_option autoImplicit false

namespace Elastic

/-! ## Values -/

/-- The dynamic values a Go `interface{}` can hold in this file: the nil
interface, a `string`, an `int`, a `[]interface{}` and a
`map[string]interface{}`. -/
inductive Value where
  | nil : Value
  | str : String → Value
  | int : Int → Value
  | slice : List Value → Value
  | map : List (String × Value) → Value

mutual
/-- Equality of values is decidable. -/
def Value.decEq : (a b : Value) → Decidable (a = b)
  | Value.nil, Value.nil => isTrue rfl
  | Value.nil, Value.str _ => isFalse (fun h => Value.noConfusion h)
  | Value.nil, Value.int _ => isFalse (fun h => Value.noConfusion h)
  | Value.nil, Value.slice _ => isFalse (fun h => Value.noConfusion h)
  | Value.nil, Value.map _ => isFalse (fun h => Value.noConfusion h)
  | Value.str _, Value.nil => isFalse (fun h => Value.noConfusion h)
  | Value.str x, Value.str y =>
    if h : x = y then isTrue (congrArg Value.str h)
    else isFalse (fun h' => h (Value.str.inj h'))
  | Value.str _, Value.int _ => isFalse (fun h => Value.noConfusion h)
  | Value.str _, Value.slice _ => isFalse (fun h => Value.noConfusion h)
  | Value.str _, Value.map _ => isFalse (fun h => Value.noConfusion h)
  | Value.int _, Value.nil => isFalse (fun h => Value.noConfusion h)
  | Value.int _, Value.str _ => isFalse (fun h => Value.noConfusion h)
  | Value.int x, Value.int y =>
    if h : x = y then isTrue (congrArg Value.int h)
    else isFalse (fun h' => h (Value.int.inj h'))
  | Value.int _, Value.slice _ => isFalse (fun h => Value.noConfusion h)
  | Value.int _, Value.map _ => isFalse (fun h => Value.noConfusion h)
  | Value.slice _, Value.nil => isFalse (fun h => Value.noConfusion h)
  | Value.slice _, Value.str _ => isFalse (fun h => Value.noConfusion h)
  | Value.slice _, Value.int _ => isFalse (fun h => Value.noConfusion h)
  | Value.slice xs, Value.slice ys =>
    match Value.decEqList xs ys with
    | isTrue h => isTrue (congrArg Value.slice h)
    | isFalse h => isFalse (fun h' => h (Value.slice.inj h'))
  | Value.slice _, Value.map _ => isFalse (fun h => Value.noConfusion h)
  | Value.map _, Value.nil => isFalse (fun h => Value.noConfusion h)
  | Value.map _, Value.str _ => isFalse (fun h => Value.noConfusion h)
  | Value.map _, Value.int _ => isFalse (fun h => Value.noConfusion h)
  | Value.map _, Value.slice _ => isFalse (fun h => Value.noConfusion h)
  | Value.map xs, Value.map ys =>
    match Value.decEqMap xs ys with
    | isTrue h => isTrue (congrArg Value.map h)
    | isFalse h => isFalse (fun h' => h (Value.map.inj h'))
/-- Equality of slices of values is decidable. -/
def Value.decEqList : (xs ys : List Value) → Decidable (xs = ys)
  | [], [] => isTrue rfl
  | [], _ :: _ => isFalse (fun h => List.noConfusion h)
  | _ :: _, [] => isFalse (fun h => List.noConfusion h)
  | x :: xs, y :: ys =>
    match Value.decEq x y, Value.decEqList xs ys with
    | isTrue h, isTrue hs => isTrue (congrArg₂ List.cons h hs)
    | isFalse h, _ => isFalse (fun h' => h (List.cons.inj h').1)
    | _, isFalse hs => isFalse (fun h' => hs (List.cons.inj h').2)
/-- Equality of maps, as association lists, is decidable. -/
def Value.decEqMap : (xs ys : List (String × Value)) → Decidable (xs = ys)
  | [], [] => isTrue rfl
  | [], _ :: _ => isFalse (fun h => List.noConfusion h)
  | _ :: _, [] => isFalse (fun h => List.noConfusion h)
  | (k, x) :: xs, (l, y) :: ys =>
    if hk : k = l then
      match Value.decEq x y, Value.decEqMap xs ys with
      | isTrue h, isTrue hs => isTrue (by rw [hk, h, hs])
      | isFalse h, _ => isFalse (fun h' => h (Prod.mk.inj (List.cons.inj h').1).2)
      | _, isFalse hs => isFalse (fun h' => hs (List.cons.inj h').2)
    else isFalse (fun h' => hk (Prod.mk.inj (List.cons.inj h').1).1)
end

instance : DecidableEq Value := Value.decEq

/-- A Go `map[string]interface{}`, as an association list. -/
abbrev GoMap := List (String × Value)

/-- The assignment `m[k] = v`: overwrite the entry of `k` if there is one, add
an entry otherwise. -/
def GoMap.set : GoMap → String → Value → GoMap
  | [], k, v => [(k, v)]
  | (k', v') :: m, k, v =>
    if k' = k then (k, v) :: m else (k', v') :: GoMap.set m k v

/-- The lookup `m[k]` with its presence flag: `none` when `k` is not a key. -/
def GoMap.get : GoMap → String → Option Value
  | [], _ => none
  | (k', v') :: m, k => if k' = k then some v' else GoMap.get m k

/-- The keys of a map. -/
def GoMap.keys (m : GoMap) : List String := m.map Prod.fst

/-- A Go `error` value that is not nil. -/
structure Error where
  msg : String
  deriving DecidableEq, Repr

/-- The result pair `(interface{}, error)` of a `Source` method. -/
abbrev Result := Value × Option Error

/-! ## The inner-hit collaborator -/

/-- Modelled from the spec: the type `InnerHit` is declared outside
`search_collapse_builder.go`, which uses one capability of it only, the method
`Source() (interface{}, error)`: "produce a serializable representation, or
fail". A type `H` of inner-hit specs is any type with that capability. -/
class InnerHit (H : Type) where
  Source : H → Result

/-! ## The builder -/

/-- The struct `CollapseBuilder`: `maxConcurrentGroupRequests` is a `*int`,
`none` being the nil pointer; `innerHits` is the sequence of the elements of the
slice, as read when a method runs (`CollapseBuilderMem` keeps the slice header
and the memory cells apart). -/
structure CollapseBuilder (H : Type) where
  field : String
  innerHits : List H
  maxConcurrentGroupRequests : Option Int

/-- The constructor `NewCollapseBuilder(field)`: `&CollapseBuilder{field: field}`,
the other two fields zero-valued. -/
def NewCollapseBuilder (H : Type) (field : String) : CollapseBuilder H :=
  { field := field, innerHits := [], maxConcurrentGroupRequests := none }

/-- The setter `b.Field(field)`: `b.field = field; return b`. -/
def CollapseBuilder.Field {H : Type} (b : CollapseBuilder H) (field : String) :
    CollapseBuilder H :=
  { b with field := field }

/-- The setter `b.InnerHit(innerHits...)`: `b.innerHits = innerHits; return b`. -/
def CollapseBuilder.InnerHit {H : Type} (b : CollapseBuilder H) (innerHits : List H) :
    CollapseBuilder H :=
  { b with innerHits := innerHits }

/-- The setter `b.MaxConcurrentGroupRequests(max)`:
`b.maxConcurrentGroupRequests = &max; return b`. -/
def CollapseBuilder.MaxConcurrentGroupRequests {H : Type} (b : CollapseBuilder H)
    (max : Int) : CollapseBuilder H :=
  { b with maxConcurrentGroupRequests := some max }

/-- The loop of `Source` (lines 63-69) over the inner hits still to visit, with
the slice `hits` built so far: the first error leaves the loop (and the
method), otherwise the serialized hit is appended. -/
def CollapseBuilder.sourceLoop {H : Type} [Elastic.InnerHit H] :
    List H → List Value → Sum Error (List Value)
  | [], hits => Sum.inr hits
  | innerHit :: rest, hits =>
    match Elastic.InnerHit.Source innerHit with
    | (_, some err) => Sum.inl err
    | (hit, none) => CollapseBuilder.sourceLoop rest (hits ++ [hit])

/-- The end of `Source` (lines 73-77): the concurrency limit is written when
the pointer is not nil, and `src, nil` is returned. -/
def CollapseBuilder.sourceTail {H : Type} (b : CollapseBuilder H) (src : GoMap) : Result :=
  match b.maxConcurrentGroupRequests with
  | some max => (Value.map (GoMap.set src "max_concurrent_group_searches" (Value.int max)), none)
  | none => (Value.map src, none)

/-- The method `b.Source()`: its result pair, and the builder after the call. -/
def CollapseBuilder.Source {H : Type} [Elastic.InnerHit H] (b : CollapseBuilder H) :
    Result × CollapseBuilder H :=
  let src : GoMap := [("field", Value.str b.field)]
  if h : b.innerHits.length = 1 then
    match Elastic.InnerHit.Source (b.innerHits.get ⟨0, by omega⟩) with
    | (_, some err) => ((Value.nil, some err), b)
    | (hits, none) => (CollapseBuilder.sourceTail b (GoMap.set src "inner_hits" hits), b)
  else if b.innerHits.length > 1 then
    match CollapseBuilder.sourceLoop b.innerHits [] with
    | Sum.inl err => ((Value.nil, some err), b)
    | Sum.inr hits =>
      (CollapseBuilder.sourceTail b (GoMap.set src "inner_hits" (Value.slice hits)), b)
  else
    (CollapseBuilder.sourceTail b src, b)

/-! ## A concrete inner-hit type, for evaluation -/

/-- An inner-hit spec whose `Source` returns a fixed pair; `name` plays the part
of the state of a spec that its `Source` does not show. -/
structure FixedHit where
  name : String
  value : Value
  err : Option Error
  deriving DecidableEq

instance : InnerHit FixedHit where
  Source h := (h.value, h.err)

/-! ## The map built by `Source` -/

/-- The map that `Source` has built when it reaches the concurrency limit. -/
def sourceBody {H : Type} [InnerHit H] (b : CollapseBuilder H) : GoMap :=
  match b.innerHits with
  | [] => [("field", Value.str b.field)]
  | [h] => [("field", Value.str b.field), ("inner_hits", (InnerHit.Source h).1)]
  | h1 :: h2 :: t =>
    [("field", Value.str b.field),
     ("inner_hits", Value.slice ((h1 :: h2 :: t).map (fun h => (InnerHit.Source h).1)))]

/-! ## Evaluation data -/

/-- The serialized inner hit of the worked example: `{"name": "last_tweets"}`. -/
def lastTweets : Value := Value.map [("name", Value.str "last_tweets")]

/-- An inner hit that serializes to `lastTweets`. -/
def hitA : FixedHit := { name := "a", value := lastTweets, err := none }

/-- An inner hit that serializes to the string `"b"`. -/
def hitB : FixedHit := { name := "b", value := Value.str "b", err := none }

/-- An inner hit whose `Source` fails with the error `first`. -/
def hitBad1 : FixedHit := { name := "bad1", value := Value.nil, err := some ⟨"first"⟩ }

/-- An inner hit whose `Source` fails with the error `second`. -/
def hitBad2 : FixedHit := { name := "bad2", value := Value.nil, err := some ⟨"second"⟩ }

/-- An inner hit that serializes to `lastTweets` as `hitA` does, and is another
inner hit. -/
def hitATwin : FixedHit := { name := "twin", value := lastTweets, err := none }

/-! ## Sequences of setter calls -/

/-- A call of one of the three setters of the builder, with its argument. -/
inductive SetterCall (H : Type) where
  | field : String → SetterCall H
  | innerHit : List H → SetterCall H
  | maxConcurrentGroupRequests : Int → SetterCall H

/-- The builder after the setter call `c` on the builder `b`. -/
def SetterCall.run {H : Type} (c : SetterCall H) (b : CollapseBuilder H) :
    CollapseBuilder H :=
  match c with
  | SetterCall.field name => b.Field name
  | SetterCall.innerHit innerHits => b.InnerHit innerHits
  | SetterCall.maxConcurrentGroupRequests max => b.MaxConcurrentGroupRequests max

/-- The builder after the setter calls `cs` on the builder `b`, the head of the
list being the first call. -/
def runCalls {H : Type} : List (SetterCall H) → CollapseBuilder H → CollapseBuilder H
  | [], b => b
  | c :: cs, b => runCalls cs (c.run b)

/-! ## The builder in memory

In Go the field `innerHits` is a slice header: the setter `InnerHit` stores the
header it is given and copies no element, so that after `b.InnerHit(hs...)` the
builder and the caller read the same memory cells. The definitions below keep
the header and the cells apart; `CollapseBuilderMem.load` gives the builder
value of the sections above. -/

/-- The memory cells that hold `*InnerHit` pointers: at each address, the inner
hit found there. -/
abbrev Memory (H : Type) := Nat → H

/-- The assignment `hs[i] = h` of a caller, `a` being the address of `hs[i]`. -/
def Memory.write {H : Type} (μ : Memory H) (a : Nat) (h : H) : Memory H :=
  fun a' => if a' = a then h else μ a'

/-- The assignments `ws` of a caller, the head of the list being the first. -/
def Memory.writes {H : Type} : List (Nat × H) → Memory H → Memory H
  | [], μ => μ
  | (a, h) :: ws, μ => Memory.writes ws (Memory.write μ a h)

/-- The `n` cells from the address `a` on. -/
def Memory.read {H : Type} (μ : Memory H) : Nat → Nat → List H
  | _, 0 => []
  | a, n + 1 => μ a :: Memory.read μ (a + 1) n

/-- The header of a `[]*InnerHit` slice: the address of its first element and
its length (the capacity is not read in this file). -/
structure Slice where
  ptr : Nat
  len : Nat
  deriving DecidableEq, Repr

/-- The struct `CollapseBuilder` as Go stores it, `innerHits` being a slice
header. -/
structure CollapseBuilderMem where
  field : String
  innerHits : Slice
  maxConcurrentGroupRequests : Option Int
  deriving DecidableEq, Repr

/-- The constructor `NewCollapseBuilder(field)` in memory: `innerHits` is the nil
slice. -/
def NewCollapseBuilderMem (field : String) : CollapseBuilderMem :=
  { field := field, innerHits := { ptr := 0, len := 0 }, maxConcurrentGroupRequests := none }

/-- The setter `b.InnerHit(innerHits...)` in memory: `b.innerHits = innerHits`
assigns the header, and no cell is copied. -/
def CollapseBuilderMem.InnerHit (b : CollapseBuilderMem) (innerHits : Slice) :
    CollapseBuilderMem :=
  { b with innerHits := innerHits }

/-- The builder value held in memory: the elements of `innerHits` are read from
the cells of the slice. -/
def CollapseBuilderMem.load {H : Type} (b : CollapseBuilderMem) (μ : Memory H) :
    CollapseBuilder H :=
  { field := b.field
    innerHits := Memory.read μ b.innerHits.ptr b.innerHits.len
    maxConcurrentGroupRequests := b.maxConcurrentGroupRequests }

/-- The loop of `Source` (lines 63-69) in memory: `k` elements are still to
visit, the next one is `b.innerHits[i]`, read at the address `ptr + i`. -/
def CollapseBuilderMem.sourceLoop {H : Type} [Elastic.InnerHit H] (μ : Memory H)
    (ptr : Nat) : Nat → Nat → List Value → Sum Error (List Value)
  | 0, _, hits => Sum.inr hits
  | k + 1, i, hits =>
    match Elastic.InnerHit.Source (μ (ptr + i)) with
    | (_, some err) => Sum.inl err
    | (hit, none) => CollapseBuilderMem.sourceLoop μ ptr k (i + 1) (hits ++ [hit])

/-- The end of `Source` (lines 73-77) in memory. -/
def CollapseBuilderMem.sourceTail (b : CollapseBuilderMem) (src : GoMap) : Result :=
  match b.maxConcurrentGroupRequests with
  | some max => (Value.map (GoMap.set src "max_concurrent_group_searches" (Value.int max)), none)
  | none => (Value.map src, none)

/-- The method `b.Source()` in memory: its result pair, then the memory and the
builder after the call. The elements of `b.innerHits` are read from the cells
at the time of the call. -/
def CollapseBuilderMem.Source {H : Type} [Elastic.InnerHit H] (b : CollapseBuilderMem)
    (μ : Memory H) : Result × Memory H × CollapseBuilderMem :=
  let src : GoMap := [("field", Value.str b.field)]
  if b.innerHits.len = 1 then
    match Elastic.InnerHit.Source (μ (b.innerHits.ptr + 0)) with
    | (_, some err) => ((Value.nil, some err), μ, b)
    | (hits, none) =>
      (CollapseBuilderMem.sourceTail b (GoMap.set src "inner_hits" hits), μ, b)
  else if b.innerHits.len > 1 then
    match CollapseBuilderMem.sourceLoop μ b.innerHits.ptr b.innerHits.len 0 [] with
    | Sum.inl err => ((Value.nil, some err), μ, b)
    | Sum.inr hits =>
      (CollapseBuilderMem.sourceTail b (GoMap.set src "inner_hits" (Value.slice hits)), μ, b)
  else
    (CollapseBuilderMem.sourceTail b src, μ, b)

/-- A memory whose cells all hold `hitA`: the caller's slice
`hs := []*InnerHit{hitA}` is the cell at address `0`. -/
def memA : Memory FixedHit := fun _ => hitA

/-- The builder `NewCollapseBuilder("user").InnerHit(hs...)` for the slice `hs`
of one element at address `0`. -/
def builderA : CollapseBuilderMem :=
  (NewCollapseBuilderMem "user").InnerHit { ptr := 0, len := 1 }

/-! ## Lemmas on maps -/

theorem GoMap.get_set_same (m : GoMap) (k : String) (v : Value) :
    GoMap.get (GoMap.set m k v) k = some v := by
  induction m with
  | nil => simp [GoMap.set, GoMap.get]
  | cons p m ih =>
    obtain ⟨k', v'⟩ := p
    by_cases hk : k' = k <;> simp [GoMap.set, GoMap.get, hk, ih]

theorem GoMap.get_set_other (m : GoMap) (k l : String) (v : Value) (hkl : k ≠ l) :
    GoMap.get (GoMap.set m k v) l = GoMap.get m l := by
  induction m with
  | nil => simp [GoMap.set, GoMap.get, hkl]
  | cons p m ih =>
    obtain ⟨k', v'⟩ := p
    by_cases hk : k' = k
    · subst hk
      simp [GoMap.set, GoMap.get, hkl]
    · by_cases hl : k' = l
      · subst hl
        simp [GoMap.set, GoMap.get, hk]
      · simp [GoMap.set, GoMap.get, hk, hl, ih]

theorem GoMap.get_ne_none_iff (k : String) (m : GoMap) :
    GoMap.get m k ≠ none ↔ k ∈ GoMap.keys m := by
  induction m with
  | nil => simp [GoMap.get, GoMap.keys]
  | cons p m ih =>
    obtain ⟨k', v'⟩ := p
    by_cases hk : k' = k
    · subst hk
      simp [GoMap.get, GoMap.keys]
    · have hk' : ¬ k = k' := fun hc => hk hc.symm
      simpa [GoMap.get, GoMap.keys, hk, hk'] using ih

/-- A value is never the one-element slice that holds it. -/
theorem Value.ne_slice_singleton (v : Value) : v ≠ Value.slice [v] := by
  intro h
  have hsz := congrArg sizeOf h
  simp at hsz
  omega

/-! ## Lemmas on the loop of `Source` -/

section Loop

variable {H : Type} [InnerHit H]

/-- When every inner hit serializes, the loop appends the serialized hits, in
order, to the slice it started with. -/
theorem sourceLoop_all_ok (hs : List H) (acc : List Value)
    (hok : ∀ h ∈ hs, (InnerHit.Source h).2 = none) :
    CollapseBuilder.sourceLoop hs acc
      = Sum.inr (acc ++ hs.map (fun h => (InnerHit.Source h).1)) := by
  induction hs generalizing acc with
  | nil => simp [CollapseBuilder.sourceLoop]
  | cons h hs ih =>
    have hh : (InnerHit.Source h).2 = none := hok h (List.mem_cons_self _ _)
    rcases hS : InnerHit.Source h with ⟨v, _ | e⟩
    · simp only [CollapseBuilder.sourceLoop, hS]
      rw [ih _ (fun x hx => hok x (List.mem_cons_of_mem _ hx))]
      simp [hS]
    · simp [hS] at hh

/-- The loop stops at the first inner hit that fails, with its error. -/
theorem sourceLoop_first_error (hs : List H) (acc : List Value) (i : Nat)
    (hi : i < hs.length) (e : Error)
    (he : (InnerHit.Source (hs.get ⟨i, hi⟩)).2 = some e)
    (hfirst : ∀ j (hj : j < i),
      (InnerHit.Source (hs.get ⟨j, Nat.lt_trans hj hi⟩)).2 = none) :
    CollapseBuilder.sourceLoop hs acc = Sum.inl e := by
  induction hs generalizing acc i with
  | nil => simp at hi
  | cons h hs ih =>
    cases i with
    | zero =>
      rcases hS : InnerHit.Source h with ⟨v, _ | e'⟩
      · simp [hS] at he
      · simp [hS] at he
        simp [CollapseBuilder.sourceLoop, hS, he]
    | succ i =>
      have h0 := hfirst 0 (Nat.succ_pos i)
      rcases hS : InnerHit.Source h with ⟨v, _ | e'⟩
      · simp only [CollapseBuilder.sourceLoop, hS]
        have hi' : i < hs.length := by simpa using hi
        refine ih _ i hi' (by simpa using he) ?_
        intro j hj
        have := hfirst (j + 1) (Nat.succ_lt_succ hj)
        simpa using this
      · simp [hS] at h0

/-- A sequence with a failing inner hit has a first failing one. -/
theorem exists_first_error (hs : List H)
    (hfail : ∃ h ∈ hs, (InnerHit.Source h).2 ≠ none) :
    ∃ (i : Nat) (hi : i < hs.length) (e : Error),
      (InnerHit.Source (hs.get ⟨i, hi⟩)).2 = some e ∧
      ∀ j (hj : j < i), (InnerHit.Source (hs.get ⟨j, Nat.lt_trans hj hi⟩)).2 = none := by
  induction hs with
  | nil => simp at hfail
  | cons h hs ih =>
    rcases hS : (InnerHit.Source h).2 with _ | e
    · have hfail' : ∃ x ∈ hs, (InnerHit.Source x).2 ≠ none := by
        obtain ⟨x, hx, hne⟩ := hfail
        rcases List.mem_cons.mp hx with rfl | hx
        · exact absurd hS hne
        · exact ⟨x, hx, hne⟩
      obtain ⟨i, hi, e, he, hfirst⟩ := ih hfail'
      refine ⟨i + 1, by simpa using hi, e, by simpa using he, ?_⟩
      intro j hj
      cases j with
      | zero => simpa using hS
      | succ j => simpa using hfirst j (Nat.lt_of_succ_lt_succ hj)
    · exact ⟨0, by simp, e, by simpa using hS, fun j hj => absurd hj (Nat.not_lt_zero j)⟩

end Loop

/-! ## The three cases of `Source` -/

theorem sourceTail_of_none {H : Type} (b : CollapseBuilder H) (src : GoMap)
    (hmx : b.maxConcurrentGroupRequests = none) :
    CollapseBuilder.sourceTail b src = (Value.map src, none) := by
  simp [CollapseBuilder.sourceTail, hmx]

theorem sourceTail_of_some {H : Type} (b : CollapseBuilder H) (src : GoMap) (n : Int)
    (hmx : b.maxConcurrentGroupRequests = some n) :
    CollapseBuilder.sourceTail b src
      = (Value.map (GoMap.set src "max_concurrent_group_searches" (Value.int n)), none) := by
  simp [CollapseBuilder.sourceTail, hmx]

/-- The end of `Source` reads the concurrency limit of the builder only. -/
theorem sourceTail_congr {H : Type} (b1 b2 : CollapseBuilder H) (src : GoMap)
    (hm : b1.maxConcurrentGroupRequests = b2.maxConcurrentGroupRequests) :
    CollapseBuilder.sourceTail b1 src = CollapseBuilder.sourceTail b2 src := by
  simp [CollapseBuilder.sourceTail, hm]

/-- A builder whose limit is set keeps a set limit through any setter calls. -/
theorem runCalls_limit_set {H : Type} (cs : List (SetterCall H)) (b : CollapseBuilder H)
    (hset : b.maxConcurrentGroupRequests ≠ none) :
    (runCalls cs b).maxConcurrentGroupRequests ≠ none := by
  induction cs generalizing b with
  | nil => exact hset
  | cons c cs ih =>
    apply ih
    cases c with
    | field name => exact hset
    | innerHit innerHits => exact hset
    | maxConcurrentGroupRequests max =>
      simp [SetterCall.run, CollapseBuilder.MaxConcurrentGroupRequests]

section Cases

variable {H : Type} [InnerHit H]

theorem source_of_nil (b : CollapseBuilder H) (hb : b.innerHits = []) :
    b.Source = (CollapseBuilder.sourceTail b [("field", Value.str b.field)], b) := by
  simp [CollapseBuilder.Source, hb]

theorem source_of_one_ok (b : CollapseBuilder H) (h : H) (v : Value)
    (hb : b.innerHits = [h]) (hv : InnerHit.Source h = (v, none)) :
    b.Source = (CollapseBuilder.sourceTail b
      [("field", Value.str b.field), ("inner_hits", v)], b) := by
  obtain ⟨f, hs, mx⟩ := b
  simp only at hb
  subst hb
  simp [CollapseBuilder.Source, hv, GoMap.set]

theorem source_of_one_error (b : CollapseBuilder H) (h : H) (v : Value) (e : Error)
    (hb : b.innerHits = [h]) (hv : InnerHit.Source h = (v, some e)) :
    b.Source = ((Value.nil, some e), b) := by
  obtain ⟨f, hs, mx⟩ := b
  simp only at hb
  subst hb
  simp [CollapseBuilder.Source, hv]

theorem source_of_many (b : CollapseBuilder H) (hN : 1 < b.innerHits.length) :
    b.Source = (match CollapseBuilder.sourceLoop b.innerHits [] with
      | Sum.inl err => ((Value.nil, some err), b)
      | Sum.inr hits => (CollapseBuilder.sourceTail b
          [("field", Value.str b.field), ("inner_hits", Value.slice hits)], b)) := by
  have h1 : ¬ b.innerHits.length = 1 := by omega
  simp only [CollapseBuilder.Source, h1, dif_neg, not_false_eq_true, gt_iff_lt, hN, if_true]
  cases CollapseBuilder.sourceLoop b.innerHits [] <;> simp [GoMap.set]

/-- With the first failing inner hit at index `i`, `Source` returns the nil
value and the error of that inner hit. -/
theorem source_error_at (b : CollapseBuilder H) (i : Nat) (hi : i < b.innerHits.length)
    (e : Error) (he : (InnerHit.Source (b.innerHits.get ⟨i, hi⟩)).2 = some e)
    (hfirst : ∀ j (hj : j < i),
      (InnerHit.Source (b.innerHits.get ⟨j, Nat.lt_trans hj hi⟩)).2 = none) :
    b.Source.1 = (Value.nil, some e) := by
  obtain ⟨f, hs, mx⟩ := b
  simp only at hi he hfirst
  match hs, hi, he, hfirst with
  | [h], hi, he, _ =>
    have h0 : i = 0 := by simpa using hi
    subst h0
    rcases hS : InnerHit.Source h with ⟨v, _ | e'⟩
    · simp [hS] at he
    · simp [hS] at he
      subst he
      rw [source_of_one_error _ h v e' rfl hS]
  | h1 :: h2 :: t, hi, he, hfirst =>
    rw [source_of_many _ (by simp), sourceLoop_first_error _ _ i hi e he hfirst]

/-- When every inner hit serializes, `Source` reaches the concurrency limit. -/
theorem source_all_ok (b : CollapseBuilder H)
    (hok : ∀ h ∈ b.innerHits, (InnerHit.Source h).2 = none) :
    b.Source = (CollapseBuilder.sourceTail b (sourceBody b), b) := by
  obtain ⟨f, hs, mx⟩ := b
  simp only at hok
  match hs, hok with
  | [], _ => rw [source_of_nil _ rfl]; rfl
  | [h], hok =>
    have hh : (InnerHit.Source h).2 = none := hok h (List.mem_singleton_self h)
    rw [source_of_one_ok _ h (InnerHit.Source h).1 rfl (by rw [← hh])]
    rfl
  | h1 :: h2 :: t, hok =>
    rw [source_of_many _ (by simp), sourceLoop_all_ok _ _ hok]
    rfl

/-- When some inner hit fails, `Source` returns the nil value and an error. -/
theorem source_error_of_fail (b : CollapseBuilder H)
    (hfail : ∃ h ∈ b.innerHits, (InnerHit.Source h).2 ≠ none) :
    ∃ e : Error, b.Source.1 = (Value.nil, some e) := by
  obtain ⟨i, hi, e, he, hfirst⟩ := exists_first_error b.innerHits hfail
  exact ⟨e, source_error_at b i hi e he hfirst⟩

/-- When `Source` returns the nil error, every inner hit has serialized. -/
theorem all_ok_of_source_ok (b : CollapseBuilder H) (hsucc : b.Source.1.2 = none) :
    ∀ h ∈ b.innerHits, (InnerHit.Source h).2 = none := by
  intro h hh
  by_contra hc
  obtain ⟨e, he⟩ := source_error_of_fail b ⟨h, hh, hc⟩
  rw [he] at hsucc
  simp at hsucc

/-- The map built before the concurrency limit has no entry for the limit. -/
theorem sourceBody_get_max (b : CollapseBuilder H) :
    GoMap.get (sourceBody b) "max_concurrent_group_searches" = none := by
  obtain ⟨f, hs, mx⟩ := b
  match hs with
  | [] => simp [sourceBody, GoMap.get]
  | [h] => simp [sourceBody, GoMap.get]
  | h1 :: h2 :: t => simp [sourceBody, GoMap.get]

/-- The loop reads the inner hits through their `Source` results only. -/
theorem sourceLoop_congr (hs1 hs2 : List H) (acc : List Value)
    (hmap : hs1.map InnerHit.Source = hs2.map InnerHit.Source) :
    CollapseBuilder.sourceLoop hs1 acc = CollapseBuilder.sourceLoop hs2 acc := by
  induction hs1 generalizing hs2 acc with
  | nil =>
    cases hs2 with
    | nil => rfl
    | cons y u => simp at hmap
  | cons x t ih =>
    cases hs2 with
    | nil => simp at hmap
    | cons y u =>
      simp only [List.map_cons, List.cons.injEq] at hmap
      obtain ⟨hxy, htu⟩ := hmap
      rcases hx : InnerHit.Source x with ⟨v, _ | e⟩
      · have hy : InnerHit.Source y = (v, none) := by rw [← hxy, hx]
        simp only [CollapseBuilder.sourceLoop, hx, hy]
        exact ih u _ htu
      · have hy : InnerHit.Source y = (v, some e) := by rw [← hxy, hx]
        simp only [CollapseBuilder.sourceLoop, hx, hy]

/-- The result of `Source` is determined by the field, the concurrency limit
and the `Source` results of the inner hits, in order. -/
theorem source_congr (b1 b2 : CollapseBuilder H) (hf : b1.field = b2.field)
    (hm : b1.maxConcurrentGroupRequests = b2.maxConcurrentGroupRequests)
    (hmap : b1.innerHits.map InnerHit.Source = b2.innerHits.map InnerHit.Source) :
    b1.Source.1 = b2.Source.1 := by
  have hlen : b1.innerHits.length = b2.innerHits.length := by
    have := congrArg List.length hmap
    simpa using this
  rcases h1 : b1.innerHits with _ | ⟨x, _ | ⟨x2, t⟩⟩
  · rcases h2 : b2.innerHits with _ | ⟨y, u⟩
    · rw [source_of_nil b1 h1, source_of_nil b2 h2]
      simp only []
      rw [hf, sourceTail_congr b1 b2 _ hm]
    · rw [h1, h2] at hlen
      simp at hlen
  · rcases h2 : b2.innerHits with _ | ⟨y, _ | ⟨y2, u⟩⟩
    · rw [h1, h2] at hlen
      simp at hlen
    · rw [h1, h2] at hmap
      have hxy : InnerHit.Source x = InnerHit.Source y := by simpa using hmap
      rcases hx : InnerHit.Source x with ⟨v, _ | e⟩
      · rw [source_of_one_ok b1 x v h1 hx, source_of_one_ok b2 y v h2 (by rw [← hxy, hx])]
        simp only []
        rw [hf, sourceTail_congr b1 b2 _ hm]
      · rw [source_of_one_error b1 x v e h1 hx,
          source_of_one_error b2 y v e h2 (by rw [← hxy, hx])]
    · rw [h1, h2] at hlen
      simp at hlen
  · rcases h2 : b2.innerHits with _ | ⟨y, _ | ⟨y2, u⟩⟩
    · rw [h1, h2] at hlen
      simp at hlen
    · rw [h1, h2] at hlen
      simp at hlen
    · rw [source_of_many b1 (by rw [h1]; simp), source_of_many b2 (by rw [h2]; simp),
        sourceLoop_congr _ _ [] hmap, hf]
      cases CollapseBuilder.sourceLoop b2.innerHits [] with
      | inl err => rfl
      | inr hits =>
        simp only []
        rw [sourceTail_congr b1 b2 _ hm]

end Cases

/-! ## `Source` in memory -/

theorem Memory.read_length {H : Type} (μ : Memory H) (a n : Nat) :
    (Memory.read μ a n).length = n := by
  induction n generalizing a with
  | zero => rfl
  | succ n ih => simp [Memory.read, ih]

/-- Two memories with the same `n` cells from `a` on read the same there. -/
theorem Memory.read_congr {H : Type} (μ1 μ2 : Memory H) (a n : Nat)
    (hsame : ∀ i, i < n → μ2 (a + i) = μ1 (a + i)) :
    Memory.read μ2 a n = Memory.read μ1 a n := by
  induction n generalizing a with
  | zero => rfl
  | succ n ih =>
    have h0 : μ2 a = μ1 a := by simpa using hsame 0 (Nat.succ_pos n)
    have hrest : Memory.read μ2 (a + 1) n = Memory.read μ1 (a + 1) n := by
      apply ih
      intro i hi
      have := hsame (i + 1) (Nat.succ_lt_succ hi)
      simpa [Nat.add_assoc, Nat.add_comm 1 i] using this
    simp [Memory.read, h0, hrest]

/-- Assignments to other cells leave the cell at `a` as it was. -/
theorem Memory.writes_other {H : Type} (ws : List (Nat × H)) (μ : Memory H) (a : Nat)
    (hne : ∀ w ∈ ws, w.1 ≠ a) : Memory.writes ws μ a = μ a := by
  induction ws generalizing μ with
  | nil => rfl
  | cons w ws ih =>
    obtain ⟨a', h⟩ := w
    have ha : a ≠ a' := fun hc => hne (a', h) (List.mem_cons_self _ _) hc.symm
    simp only [Memory.writes]
    rw [ih _ (fun x hx => hne x (List.mem_cons_of_mem _ hx))]
    simp [Memory.write, ha]

section InMemory

variable {H : Type} [InnerHit H]

/-- The loop in memory is the loop over the cells read from memory. -/
theorem sourceLoopMem_eq (μ : Memory H) (ptr k i : Nat) (acc : List Value) :
    CollapseBuilderMem.sourceLoop μ ptr k i acc
      = CollapseBuilder.sourceLoop (Memory.read μ (ptr + i) k) acc := by
  induction k generalizing i acc with
  | zero => rfl
  | succ k ih =>
    simp only [CollapseBuilderMem.sourceLoop, Memory.read, CollapseBuilder.sourceLoop]
    rcases hS : InnerHit.Source (μ (ptr + i)) with ⟨v, _ | e⟩
    · simp only []
      rw [ih, Nat.add_assoc]
    · rfl

/-- The result of `Source` in memory is the result of `Source` on the builder
value that the memory holds. -/
theorem sourceMem_eq_source_load (b : CollapseBuilderMem) (μ : Memory H) :
    (b.Source μ).1 = (b.load μ).Source.1 := by
  obtain ⟨f, ⟨ptr, len⟩, mx⟩ := b
  match len with
  | 0 =>
    rw [source_of_nil _ rfl]
    cases mx <;> rfl
  | 1 =>
    rcases hS : InnerHit.Source (μ ptr) with ⟨v, _ | e⟩
    · rw [source_of_one_ok _ (μ ptr) v rfl hS]
      simp only [CollapseBuilderMem.Source, Nat.add_zero, hS, if_true]
      cases mx <;> rfl
    · rw [source_of_one_error _ (μ ptr) v e rfl hS]
      simp only [CollapseBuilderMem.Source, Nat.add_zero, hS, if_true]
  | n + 2 =>
    rw [source_of_many _ (by simp [CollapseBuilderMem.load, Memory.read_length])]
    have h1 : ¬ (n + 2 = 1) := by omega
    have h2 : n + 2 > 1 := by omega
    simp only [CollapseBuilderMem.Source, h1, h2, if_false, if_true, sourceLoopMem_eq,
      Nat.add_zero, CollapseBuilderMem.load]
    cases CollapseBuilder.sourceLoop (Memory.read μ ptr (n + 2)) [] with
    | inl err => rfl
    | inr hits => cases mx <;> rfl

/-- After `Source` the memory and the builder are those of before the call. -/
theorem sourceMem_state (b : CollapseBuilderMem) (μ : Memory H) :
    (b.Source μ).2 = (μ, b) := by
  unfold CollapseBuilderMem.Source
  simp only []
  split
  · split <;> rfl
  · split
    · split <;> rfl
    · rfl

/-- The result of `Source` in memory depends on the memory through the cells of
the slice `b.innerHits` only. -/
theorem sourceMem_congr (b : CollapseBuilderMem) (μ1 μ2 : Memory H)
    (hsame : ∀ i, i < b.innerHits.len → μ2 (b.innerHits.ptr + i) = μ1 (b.innerHits.ptr + i)) :
    (b.Source μ2).1 = (b.Source μ1).1 := by
  rw [sourceMem_eq_source_load, sourceMem_eq_source_load]
  simp only [CollapseBuilderMem.load, Memory.read_congr μ1 μ2 _ _ hsame]

end InMemory

/-! ## The serialization contract -/

section Contract

variable {H : Type} [InnerHit H]

/-- C1: for every field string `f`, the empty one included,
`NewCollapseBuilder(f).Source()` succeeds and returns the mapping whose only
entry is `"field" -> f`: it has neither the key `"inner_hits"` nor the key
`"max_concurrent_group_searches"`. -/
theorem new_source_field_only (H : Type) [InnerHit H] (f : String) :
    ∃ m : GoMap, (NewCollapseBuilder H f).Source.1 = (Value.map m, none)
      ∧ m = [("field", Value.str f)]
      ∧ GoMap.keys m = ["field"]
      ∧ GoMap.get m "field" = some (Value.str f)
      ∧ GoMap.get m "inner_hits" = none
      ∧ GoMap.get m "max_concurrent_group_searches" = none := by
  refine ⟨[("field", Value.str f)], ?_, rfl, rfl, ?_, ?_, ?_⟩
  · rw [source_of_nil _ rfl]
    rfl
  · simp [GoMap.get]
  · simp [GoMap.get]
  · simp [GoMap.get]

/-- C2: when the inner-hit sequence holds exactly one spec `h` and `h.Source()`
succeeds with the value `v`, `Source()` succeeds and the value under
`"inner_hits"` is `v` itself, which is not the one-element slice holding `v`. -/
theorem source_single_inner_hit (b : CollapseBuilder H) (h : H) (v : Value)
    (hb : b.innerHits = [h]) (hv : InnerHit.Source h = (v, none)) :
    ∃ m : GoMap, b.Source.1 = (Value.map m, none)
      ∧ GoMap.get m "inner_hits" = some v
      ∧ GoMap.get m "inner_hits" ≠ some (Value.slice [v]) := by
  have hne : some v ≠ some (Value.slice [v]) := fun hc =>
    Value.ne_slice_singleton v (Option.some.inj hc)
  rw [source_of_one_ok b h v hb hv]
  rcases hmx : b.maxConcurrentGroupRequests with _ | n
  · rw [sourceTail_of_none b _ hmx]
    have hg : GoMap.get [("field", Value.str b.field), ("inner_hits", v)] "inner_hits"
        = some v := by
      simp [GoMap.get]
    exact ⟨_, rfl, hg, hg ▸ hne⟩
  · rw [sourceTail_of_some b _ n hmx]
    have hg : GoMap.get (GoMap.set [("field", Value.str b.field), ("inner_hits", v)]
        "max_concurrent_group_searches" (Value.int n)) "inner_hits" = some v := by
      rw [GoMap.get_set_other _ _ _ _ (by decide)]
      simp [GoMap.get]
    exact ⟨_, rfl, hg, hg ▸ hne⟩

theorem source_single_inner_hit_witness :
    ∃ m : GoMap, ((NewCollapseBuilder FixedHit "user").InnerHit [hitA]).Source.1
        = (Value.map m, none)
      ∧ GoMap.get m "inner_hits" = some lastTweets
      ∧ GoMap.get m "inner_hits" ≠ some (Value.slice [lastTweets]) :=
  source_single_inner_hit ((NewCollapseBuilder FixedHit "user").InnerHit [hitA]) hitA
    lastTweets rfl rfl

/-- C3: when the inner-hit sequence holds `N > 1` specs that all serialize,
`Source()` succeeds and the value under `"inner_hits"` is a slice of length
`N` whose `i`-th element is the serialization of the `i`-th spec. -/
theorem source_many_inner_hits (b : CollapseBuilder H) (hN : 1 < b.innerHits.length)
    (hok : ∀ h ∈ b.innerHits, (InnerHit.Source h).2 = none) :
    ∃ (m : GoMap) (vs : List Value), b.Source.1 = (Value.map m, none)
      ∧ GoMap.get m "inner_hits" = some (Value.slice vs)
      ∧ vs = b.innerHits.map (fun h => (InnerHit.Source h).1)
      ∧ vs.length = b.innerHits.length
      ∧ ∀ (i : Nat) (hi : i < b.innerHits.length),
          vs[i]? = some (InnerHit.Source (b.innerHits.get ⟨i, hi⟩)).1 := by
  rw [source_of_many b hN, sourceLoop_all_ok _ _ hok]
  have hidx : ∀ (i : Nat) (hi : i < b.innerHits.length),
      (b.innerHits.map (fun h => (InnerHit.Source h).1))[i]?
        = some (InnerHit.Source (b.innerHits.get ⟨i, hi⟩)).1 := by
    intro i hi
    simp [List.getElem?_eq_getElem, hi]
  rcases hmx : b.maxConcurrentGroupRequests with _ | n
  · simp only [List.nil_append]
    rw [sourceTail_of_none b _ hmx]
    exact ⟨_, _, rfl, by simp [GoMap.get], rfl, by simp, hidx⟩
  · simp only [List.nil_append]
    rw [sourceTail_of_some b _ n hmx]
    refine ⟨_, _, rfl, ?_, rfl, by simp, hidx⟩
    rw [GoMap.get_set_other _ _ _ _ (by decide)]
    simp [GoMap.get]

theorem source_many_inner_hits_witness :
    ∃ (m : GoMap) (vs : List Value),
      ((NewCollapseBuilder FixedHit "user").InnerHit [hitA, hitB, hitA]).Source.1
        = (Value.map m, none)
      ∧ GoMap.get m "inner_hits" = some (Value.slice vs)
      ∧ vs = [hitA, hitB, hitA].map (fun h => (InnerHit.Source h).1)
      ∧ vs.length = 3
      ∧ ∀ (i : Nat) (hi : i < 3), vs[i]? = some (InnerHit.Source
          (((NewCollapseBuilder FixedHit "user").InnerHit
            [hitA, hitB, hitA]).innerHits.get ⟨i, hi⟩)).1 :=
  source_many_inner_hits ((NewCollapseBuilder FixedHit "user").InnerHit [hitA, hitB, hitA])
    (by decide) (by decide)

/-- C4: when at least one inner hit fails to serialize, there is a
lowest-index failing one, and `Source()` returns the nil value together with
exactly the error of that inner hit, whatever the later ones would return and
whatever the length of the sequence. -/
theorem source_propagates_first_error (b : CollapseBuilder H)
    (hfail : ∃ h ∈ b.innerHits, (InnerHit.Source h).2 ≠ none) :
    (∃ (i : Nat) (hi : i < b.innerHits.length) (e : Error),
      (InnerHit.Source (b.innerHits.get ⟨i, hi⟩)).2 = some e
      ∧ (∀ j (hj : j < i),
          (InnerHit.Source (b.innerHits.get ⟨j, Nat.lt_trans hj hi⟩)).2 = none)
      ∧ b.Source.1 = (Value.nil, some e))
    ∧ ∀ (i : Nat) (hi : i < b.innerHits.length) (e : Error),
      (InnerHit.Source (b.innerHits.get ⟨i, hi⟩)).2 = some e →
      (∀ j (hj : j < i),
          (InnerHit.Source (b.innerHits.get ⟨j, Nat.lt_trans hj hi⟩)).2 = none) →
      b.Source.1 = (Value.nil, some e) := by
  constructor
  · obtain ⟨i, hi, e, he, hfirst⟩ := exists_first_error b.innerHits hfail
    exact ⟨i, hi, e, he, hfirst, source_error_at b i hi e he hfirst⟩
  · intro i hi e he hfirst
    exact source_error_at b i hi e he hfirst

theorem source_propagates_first_error_witness :
    ((NewCollapseBuilder FixedHit "user").InnerHit [hitBad2]).Source.1
        = (Value.nil, some ⟨"second"⟩)
    ∧ ((NewCollapseBuilder FixedHit "user").InnerHit [hitA, hitBad1, hitBad2]).Source.1
        = (Value.nil, some ⟨"first"⟩) :=
  ⟨(source_propagates_first_error ((NewCollapseBuilder FixedHit "user").InnerHit [hitBad2])
      ⟨hitBad2, by decide, by decide⟩).2 0 (by decide) ⟨"second"⟩ rfl
      (fun j hj => absurd hj (Nat.not_lt_zero j)),
   (source_propagates_first_error
      ((NewCollapseBuilder FixedHit "user").InnerHit [hitA, hitBad1, hitBad2])
      ⟨hitBad1, by decide, by decide⟩).2 1 (by decide) ⟨"first"⟩ rfl
      (fun j hj => by
        have h0 : j = 0 := by omega
        subst h0
        rfl)⟩

/-- C5: `Source()` fails if and only if some inner hit of the sequence fails
to serialize, whatever the field and the concurrency limit: when every inner
hit serializes (the empty sequence included) it returns a mapping and the nil
error, and when some inner hit fails it returns an error and no mapping. -/
theorem source_fails_iff (b : CollapseBuilder H) :
    (b.Source.1.2 ≠ none ↔ ∃ h ∈ b.innerHits, (InnerHit.Source h).2 ≠ none)
    ∧ ((∀ h ∈ b.innerHits, (InnerHit.Source h).2 = none) →
        ∃ m : GoMap, b.Source.1 = (Value.map m, none))
    ∧ ((∃ h ∈ b.innerHits, (InnerHit.Source h).2 ≠ none) →
        ∃ e : Error, b.Source.1 = (Value.nil, some e)) := by
  have hok : (∀ h ∈ b.innerHits, (InnerHit.Source h).2 = none) →
      ∃ m : GoMap, b.Source.1 = (Value.map m, none) := by
    intro hall
    rw [source_all_ok b hall]
    rcases hmx : b.maxConcurrentGroupRequests with _ | n
    · exact ⟨_, sourceTail_of_none b _ hmx⟩
    · exact ⟨_, sourceTail_of_some b _ n hmx⟩
  have hbad : (∃ h ∈ b.innerHits, (InnerHit.Source h).2 ≠ none) →
      ∃ e : Error, b.Source.1 = (Value.nil, some e) := source_error_of_fail b
  refine ⟨⟨?_, ?_⟩, hok, hbad⟩
  · intro hne
    by_contra hnone
    have hall : ∀ h ∈ b.innerHits, (InnerHit.Source h).2 = none := by
      intro h hh
      by_contra hc
      exact hnone ⟨h, hh, hc⟩
    obtain ⟨m, hm⟩ := hok hall
    exact hne (by rw [hm])
  · intro hfail
    obtain ⟨e, he⟩ := hbad hfail
    rw [he]
    simp

theorem source_fails_iff_witness :
    (∃ m : GoMap, ((NewCollapseBuilder FixedHit "").MaxConcurrentGroupRequests (-3)).Source.1
        = (Value.map m, none))
    ∧ (∃ e : Error,
        ((NewCollapseBuilder FixedHit "user").InnerHit [hitA, hitBad1]).Source.1
          = (Value.nil, some e)) :=
  ⟨(source_fails_iff ((NewCollapseBuilder FixedHit "").MaxConcurrentGroupRequests (-3))).2.1
      (by decide),
   (source_fails_iff ((NewCollapseBuilder FixedHit "user").InnerHit [hitA, hitBad1])).2.2
      ⟨hitBad1, by decide, by decide⟩⟩

/-- C6: for every integer `n` and every builder `b` whose inner hits all
serialize, `Source()` of `b.MaxConcurrentGroupRequests(n)` has the key
`"max_concurrent_group_searches"` with value `n`; and when the limit of `b` was
never set, `Source()` of `b` has no such key, so that setting the limit to `0`
gives another output. -/
theorem source_max_concurrent (b : CollapseBuilder H) (n : Int)
    (hok : ∀ h ∈ b.innerHits, (InnerHit.Source h).2 = none) :
    (∃ m : GoMap, (b.MaxConcurrentGroupRequests n).Source.1 = (Value.map m, none)
      ∧ GoMap.get m "max_concurrent_group_searches" = some (Value.int n))
    ∧ (b.maxConcurrentGroupRequests = none →
        ∃ m0 m : GoMap, b.Source.1 = (Value.map m0, none)
          ∧ GoMap.get m0 "max_concurrent_group_searches" = none
          ∧ (b.MaxConcurrentGroupRequests 0).Source.1 = (Value.map m, none)
          ∧ GoMap.get m "max_concurrent_group_searches" = some (Value.int 0)
          ∧ (b.MaxConcurrentGroupRequests 0).Source.1 ≠ b.Source.1) := by
  have hset : ∀ k : Int, (b.MaxConcurrentGroupRequests k).Source.1
      = (Value.map (GoMap.set (sourceBody b) "max_concurrent_group_searches"
          (Value.int k)), none) := by
    intro k
    rw [source_all_ok (b.MaxConcurrentGroupRequests k) hok,
      sourceTail_of_some (b.MaxConcurrentGroupRequests k) _ k rfl]
    rfl
  refine ⟨⟨_, hset n, GoMap.get_set_same _ _ _⟩, ?_⟩
  intro hmx
  have hunset : b.Source.1 = (Value.map (sourceBody b), none) := by
    rw [source_all_ok b hok, sourceTail_of_none b _ hmx]
  refine ⟨_, _, hunset, sourceBody_get_max b, hset 0, GoMap.get_set_same _ _ _, ?_⟩
  rw [hset 0, hunset]
  intro heq
  have hm : GoMap.set (sourceBody b) "max_concurrent_group_searches" (Value.int 0)
      = sourceBody b := Value.map.inj (Prod.mk.inj heq).1
  have hget := GoMap.get_set_same (sourceBody b) "max_concurrent_group_searches"
    (Value.int 0)
  rw [hm, sourceBody_get_max b] at hget
  exact Option.noConfusion hget

theorem source_max_concurrent_witness :
    (∃ m : GoMap,
      (((NewCollapseBuilder FixedHit "user").InnerHit [hitA]).MaxConcurrentGroupRequests
          (-2)).Source.1 = (Value.map m, none)
      ∧ GoMap.get m "max_concurrent_group_searches" = some (Value.int (-2)))
    ∧ ∃ m0 m : GoMap,
        ((NewCollapseBuilder FixedHit "user").InnerHit [hitA]).Source.1 = (Value.map m0, none)
        ∧ GoMap.get m0 "max_concurrent_group_searches" = none
        ∧ (((NewCollapseBuilder FixedHit "user").InnerHit
              [hitA]).MaxConcurrentGroupRequests 0).Source.1 = (Value.map m, none)
        ∧ GoMap.get m "max_concurrent_group_searches" = some (Value.int 0)
        ∧ (((NewCollapseBuilder FixedHit "user").InnerHit
              [hitA]).MaxConcurrentGroupRequests 0).Source.1
            ≠ ((NewCollapseBuilder FixedHit "user").InnerHit [hitA]).Source.1 :=
  ⟨(source_max_concurrent ((NewCollapseBuilder FixedHit "user").InnerHit [hitA]) (-2)
      (by decide)).1,
   (source_max_concurrent ((NewCollapseBuilder FixedHit "user").InnerHit [hitA]) (-2)
      (by decide)).2 rfl⟩

/-- C7: `InnerHit` overwrites the sequence: `b.InnerHit(xs...).InnerHit(ys...)`
is the builder `b.InnerHit(ys...)`, with inner-hit sequence `ys` and the same
`Source()` result; with `ys` empty, `Source()` succeeds and its output has no
`"inner_hits"` key, whatever `xs` was. -/
theorem innerHit_overwrites (b : CollapseBuilder H) (xs ys : List H) :
    (b.InnerHit xs).InnerHit ys = b.InnerHit ys
    ∧ ((b.InnerHit xs).InnerHit ys).innerHits = ys
    ∧ ((b.InnerHit xs).InnerHit ys).Source.1 = (b.InnerHit ys).Source.1
    ∧ ∃ m : GoMap, ((b.InnerHit xs).InnerHit []).Source.1 = (Value.map m, none)
        ∧ GoMap.get m "inner_hits" = none
        ∧ "inner_hits" ∉ GoMap.keys m := by
  refine ⟨rfl, rfl, rfl, ?_⟩
  rw [source_of_nil _ rfl]
  rcases hmx : ((b.InnerHit xs).InnerHit []).maxConcurrentGroupRequests with _ | n
  · rw [sourceTail_of_none _ _ hmx]
    exact ⟨_, rfl, by simp [GoMap.get], by simp [GoMap.keys]⟩
  · rw [sourceTail_of_some _ _ n hmx]
    exact ⟨_, rfl, by simp [GoMap.get, GoMap.set], by simp [GoMap.keys, GoMap.set]⟩

/-- C8, as stated, fails: after `b := NewCollapseBuilder("user").InnerHit(hs...)`
with `hs` holding the one inner hit `hitA`, a first `Source()` returns
`{"field": "user", "inner_hits": {"name": "last_tweets"}}` and leaves the
builder as it was; the caller then assigns `hs[0] = hitB`, which is no setter
call, and a second `Source()` returns `{"field": "user", "inner_hits": "b"}`,
another result. -/
theorem source_twice_differs_after_slice_write :
    (builderA.Source memA).1
        = (Value.map [("field", Value.str "user"), ("inner_hits", lastTweets)], none)
    ∧ (builderA.Source memA).2.2 = builderA
    ∧ ((builderA.Source memA).2.2.Source
          (Memory.write (builderA.Source memA).2.1 0 hitB)).1
        = (Value.map [("field", Value.str "user"), ("inner_hits", Value.str "b")], none)
    ∧ ((builderA.Source memA).2.2.Source
          (Memory.write (builderA.Source memA).2.1 0 hitB)).1
        ≠ (builderA.Source memA).1 := by
  refine ⟨by decide, by decide, by decide, by decide⟩

/-- C8, amended: `Source()` only reads: after the call the memory and the
builder are those of before the call, with the same field, `innerHits` header
and concurrency limit; and a second `Source()`, with no setter call in between
and with the caller assigning, in between, no element of the slice held in
`b.innerHits` (any other cell may be assigned), returns the result of the
first call, the same mapping or the same error. -/
theorem source_pure_read (b : CollapseBuilderMem) (μ : Memory H)
    (ws : List (Nat × H))
    (hout : ∀ w ∈ ws, w.1 < b.innerHits.ptr ∨ b.innerHits.ptr + b.innerHits.len ≤ w.1) :
    (b.Source μ).2 = (μ, b)
    ∧ (b.Source μ).2.2.field = b.field
    ∧ (b.Source μ).2.2.innerHits = b.innerHits
    ∧ (b.Source μ).2.2.maxConcurrentGroupRequests = b.maxConcurrentGroupRequests
    ∧ ((b.Source μ).2.2.Source (Memory.writes ws (b.Source μ).2.1)).1 = (b.Source μ).1 := by
  have hst : (b.Source μ).2 = (μ, b) := sourceMem_state b μ
  refine ⟨hst, ?_, ?_, ?_, ?_⟩
  · rw [hst]
  · rw [hst]
  · rw [hst]
  · rw [hst]
    apply sourceMem_congr b μ (Memory.writes ws μ)
    intro i hi
    apply Memory.writes_other
    intro w hw hc
    rcases hout w hw with hlt | hge
    · omega
    · omega

theorem source_pure_read_witness :
    (((NewCollapseBuilderMem "user").InnerHit { ptr := 3, len := 2 }).Source memA).2
        = (memA, (NewCollapseBuilderMem "user").InnerHit { ptr := 3, len := 2 })
    ∧ ((((NewCollapseBuilderMem "user").InnerHit { ptr := 3, len := 2 }).Source memA).2.2.Source
          (Memory.writes [(2, hitB), (5, hitBad1)]
            (((NewCollapseBuilderMem "user").InnerHit
              { ptr := 3, len := 2 }).Source memA).2.1)).1
        = (((NewCollapseBuilderMem "user").InnerHit { ptr := 3, len := 2 }).Source memA).1 :=
  ⟨(source_pure_read ((NewCollapseBuilderMem "user").InnerHit { ptr := 3, len := 2 }) memA
      [(2, hitB), (5, hitBad1)] (by decide)).1,
   (source_pure_read ((NewCollapseBuilderMem "user").InnerHit { ptr := 3, len := 2 }) memA
      [(2, hitB), (5, hitBad1)] (by decide)).2.2.2.2⟩

/-- C9: for every field `f`, every inner hit `h` that serializes to `v` and
every integer `n`, `NewCollapseBuilder(f).InnerHit(h).MaxConcurrentGroupRequests(n)
.Source()` succeeds and is the mapping with the three entries `"field" -> f`,
`"inner_hits" -> v` and `"max_concurrent_group_searches" -> n`. -/
theorem source_end_to_end (f : String) (h : H) (v : Value) (n : Int)
    (hv : InnerHit.Source h = (v, none)) :
    (((NewCollapseBuilder H f).InnerHit [h]).MaxConcurrentGroupRequests n).Source.1
      = (Value.map [("field", Value.str f), ("inner_hits", v),
          ("max_concurrent_group_searches", Value.int n)], none) := by
  rw [source_of_one_ok _ h v rfl hv, sourceTail_of_some _ _ n rfl]
  simp [GoMap.set, NewCollapseBuilder, CollapseBuilder.InnerHit,
    CollapseBuilder.MaxConcurrentGroupRequests]

theorem source_end_to_end_witness :
    (((NewCollapseBuilder FixedHit "user").InnerHit [hitA]).MaxConcurrentGroupRequests
        4).Source.1
      = (Value.map [("field", Value.str "user"),
          ("inner_hits", Value.map [("name", Value.str "last_tweets")]),
          ("max_concurrent_group_searches", Value.int 4)], none) :=
  source_end_to_end "user" hitA lastTweets 4 rfl

/-- C10: when `Source()` succeeds it returns a mapping whose keys are
`"field"`, `"inner_hits"` exactly when the inner-hit sequence is not empty, and
`"max_concurrent_group_searches"` exactly when the concurrency limit is set,
and no other key; `"field"` maps to the field string of the builder. -/
theorem source_key_set (b : CollapseBuilder H) (hsucc : b.Source.1.2 = none) :
    ∃ m : GoMap, b.Source.1.1 = Value.map m
      ∧ (∀ k : String, k ∈ GoMap.keys m ↔
          (k = "field" ∨ (k = "inner_hits" ∧ b.innerHits ≠ [])
            ∨ (k = "max_concurrent_group_searches" ∧ b.maxConcurrentGroupRequests ≠ none)))
      ∧ (∀ k : String, GoMap.get m k ≠ none ↔ k ∈ GoMap.keys m)
      ∧ (GoMap.keys m).Nodup
      ∧ GoMap.get m "field" = some (Value.str b.field) := by
  rw [source_all_ok b (all_ok_of_source_ok b hsucc)]
  obtain ⟨f, hs, mx⟩ := b
  match hs, mx with
  | [], none =>
    refine ⟨_, rfl, ?_, fun k => GoMap.get_ne_none_iff k _, ?_, ?_⟩
      <;> simp [CollapseBuilder.sourceTail, sourceBody, GoMap.set, GoMap.get, GoMap.keys]
  | [], some n =>
    refine ⟨_, rfl, ?_, fun k => GoMap.get_ne_none_iff k _, ?_, ?_⟩
      <;> simp [CollapseBuilder.sourceTail, sourceBody, GoMap.set, GoMap.get, GoMap.keys]
  | [h], none =>
    refine ⟨_, rfl, ?_, fun k => GoMap.get_ne_none_iff k _, ?_, ?_⟩
      <;> simp [CollapseBuilder.sourceTail, sourceBody, GoMap.set, GoMap.get, GoMap.keys]
  | [h], some n =>
    refine ⟨_, rfl, ?_, fun k => GoMap.get_ne_none_iff k _, ?_, ?_⟩
      <;> simp [CollapseBuilder.sourceTail, sourceBody, GoMap.set, GoMap.get, GoMap.keys]
  | h1 :: h2 :: t, none =>
    refine ⟨_, rfl, ?_, fun k => GoMap.get_ne_none_iff k _, ?_, ?_⟩
      <;> simp [CollapseBuilder.sourceTail, sourceBody, GoMap.set, GoMap.get, GoMap.keys]
  | h1 :: h2 :: t, some n =>
    refine ⟨_, rfl, ?_, fun k => GoMap.get_ne_none_iff k _, ?_, ?_⟩
      <;> simp [CollapseBuilder.sourceTail, sourceBody, GoMap.set, GoMap.get, GoMap.keys]

theorem source_key_set_witness :
    ∃ m : GoMap,
      (((NewCollapseBuilder FixedHit "user").InnerHit
          [hitA, hitB]).MaxConcurrentGroupRequests 4).Source.1.1 = Value.map m
      ∧ (∀ k : String, k ∈ GoMap.keys m ↔
          (k = "field" ∨ (k = "inner_hits" ∧ [hitA, hitB] ≠ [])
            ∨ (k = "max_concurrent_group_searches" ∧ some (4 : Int) ≠ none)))
      ∧ (∀ k : String, GoMap.get m k ≠ none ↔ k ∈ GoMap.keys m)
      ∧ (GoMap.keys m).Nodup
      ∧ GoMap.get m "field" = some (Value.str "user") :=
  source_key_set
    (((NewCollapseBuilder FixedHit "user").InnerHit [hitA, hitB]).MaxConcurrentGroupRequests 4)
    (by decide)

end Contract

/-! ## The setters -/

section Setters

variable {H : Type} [InnerHit H]

/-- C11: `Field(name)` overwrites the field only: `b.Field(name)` has field
`name` and the inner hits and concurrency limit of `b`; when `Source()`
succeeds after the call it succeeded before it too, `"field"` maps to `name`,
and the entries of `"inner_hits"` and `"max_concurrent_group_searches"`
(present or absent) are those of before the call; and
`NewCollapseBuilder(g).Field(f)` is `NewCollapseBuilder(f)`, with the same
`Source()` result. -/
theorem field_overwrites_field_only (b : CollapseBuilder H) (name : String) :
    (b.Field name).field = name
    ∧ (b.Field name).innerHits = b.innerHits
    ∧ (b.Field name).maxConcurrentGroupRequests = b.maxConcurrentGroupRequests
    ∧ ((b.Field name).Source.1.2 = none →
        ∃ m m0 : GoMap, (b.Field name).Source.1 = (Value.map m, none)
          ∧ b.Source.1 = (Value.map m0, none)
          ∧ GoMap.get m "field" = some (Value.str name)
          ∧ GoMap.get m "inner_hits" = GoMap.get m0 "inner_hits"
          ∧ GoMap.get m "max_concurrent_group_searches"
              = GoMap.get m0 "max_concurrent_group_searches")
    ∧ ∀ g f : String, (NewCollapseBuilder H g).Field f = NewCollapseBuilder H f
        ∧ ((NewCollapseBuilder H g).Field f).Source.1 = (NewCollapseBuilder H f).Source.1 := by
  refine ⟨rfl, rfl, rfl, ?_, fun g f => ⟨rfl, rfl⟩⟩
  intro hsucc
  have hok : ∀ h ∈ b.innerHits, (InnerHit.Source h).2 = none :=
    all_ok_of_source_ok (b.Field name) hsucc
  rw [source_all_ok (b.Field name) hok, source_all_ok b hok]
  obtain ⟨f, hs, mx⟩ := b
  match hs, mx with
  | [], none =>
    refine ⟨_, _, rfl, rfl, ?_, ?_, ?_⟩ <;>
      simp [CollapseBuilder.Field, sourceBody, GoMap.get]
  | [], some n =>
    refine ⟨_, _, rfl, rfl, ?_, ?_, ?_⟩ <;>
      simp [CollapseBuilder.Field, sourceBody, GoMap.get, GoMap.set]
  | [h], none =>
    refine ⟨_, _, rfl, rfl, ?_, ?_, ?_⟩ <;>
      simp [CollapseBuilder.Field, sourceBody, GoMap.get]
  | [h], some n =>
    refine ⟨_, _, rfl, rfl, ?_, ?_, ?_⟩ <;>
      simp [CollapseBuilder.Field, sourceBody, GoMap.get, GoMap.set]
  | h1 :: h2 :: t, none =>
    refine ⟨_, _, rfl, rfl, ?_, ?_, ?_⟩ <;>
      simp [CollapseBuilder.Field, sourceBody, GoMap.get]
  | h1 :: h2 :: t, some n =>
    refine ⟨_, _, rfl, rfl, ?_, ?_, ?_⟩ <;>
      simp [CollapseBuilder.Field, sourceBody, GoMap.get, GoMap.set]

theorem field_overwrites_field_only_witness :
    ∃ m m0 : GoMap,
      ((((NewCollapseBuilder FixedHit "user").InnerHit
          [hitA]).MaxConcurrentGroupRequests 4).Field "author").Source.1 = (Value.map m, none)
      ∧ (((NewCollapseBuilder FixedHit "user").InnerHit
          [hitA]).MaxConcurrentGroupRequests 4).Source.1 = (Value.map m0, none)
      ∧ GoMap.get m "field" = some (Value.str "author")
      ∧ GoMap.get m "inner_hits" = GoMap.get m0 "inner_hits"
      ∧ GoMap.get m "max_concurrent_group_searches"
          = GoMap.get m0 "max_concurrent_group_searches" :=
  (field_overwrites_field_only
    (((NewCollapseBuilder FixedHit "user").InnerHit [hitA]).MaxConcurrentGroupRequests 4)
    "author").2.2.2.1 (by decide)

/-- C12: the three setters commute: applied to a builder `b` in any of the six
orders, `Field(f)`, `InnerHit(hs...)` and `MaxConcurrentGroupRequests(n)` give
the builder with field `f`, inner hits `hs` and limit `n`, hence the same
`Source()` result. -/
theorem setters_commute (b : CollapseBuilder H) (f : String) (hs : List H) (n : Int) :
    (((b.Field f).InnerHit hs).MaxConcurrentGroupRequests n
        = { field := f, innerHits := hs, maxConcurrentGroupRequests := some n }
      ∧ ((b.Field f).MaxConcurrentGroupRequests n).InnerHit hs
        = { field := f, innerHits := hs, maxConcurrentGroupRequests := some n }
      ∧ ((b.InnerHit hs).Field f).MaxConcurrentGroupRequests n
        = { field := f, innerHits := hs, maxConcurrentGroupRequests := some n }
      ∧ ((b.InnerHit hs).MaxConcurrentGroupRequests n).Field f
        = { field := f, innerHits := hs, maxConcurrentGroupRequests := some n }
      ∧ ((b.MaxConcurrentGroupRequests n).Field f).InnerHit hs
        = { field := f, innerHits := hs, maxConcurrentGroupRequests := some n }
      ∧ ((b.MaxConcurrentGroupRequests n).InnerHit hs).Field f
        = { field := f, innerHits := hs, maxConcurrentGroupRequests := some n })
    ∧ (((b.Field f).MaxConcurrentGroupRequests n).InnerHit hs).Source.1
        = (((b.Field f).InnerHit hs).MaxConcurrentGroupRequests n).Source.1
    ∧ (((b.InnerHit hs).Field f).MaxConcurrentGroupRequests n).Source.1
        = (((b.Field f).InnerHit hs).MaxConcurrentGroupRequests n).Source.1
    ∧ (((b.InnerHit hs).MaxConcurrentGroupRequests n).Field f).Source.1
        = (((b.Field f).InnerHit hs).MaxConcurrentGroupRequests n).Source.1
    ∧ (((b.MaxConcurrentGroupRequests n).Field f).InnerHit hs).Source.1
        = (((b.Field f).InnerHit hs).MaxConcurrentGroupRequests n).Source.1
    ∧ (((b.MaxConcurrentGroupRequests n).InnerHit hs).Field f).Source.1
        = (((b.Field f).InnerHit hs).MaxConcurrentGroupRequests n).Source.1 :=
  ⟨⟨rfl, rfl, rfl, rfl, rfl, rfl⟩, rfl, rfl, rfl, rfl, rfl⟩

/-- C13: the concurrency-limit setter is last-write-wins,
`b.MaxConcurrentGroupRequests(m).MaxConcurrentGroupRequests(n)` being the
builder `b.MaxConcurrentGroupRequests(n)`, and the limit never becomes unset
again: after any sequence of `Field`, `InnerHit` and
`MaxConcurrentGroupRequests` calls on a builder whose limit was set, the limit
is set, and a successful `Source()` output has the key
`"max_concurrent_group_searches"`, with an integer value. -/
theorem max_last_write_wins (b : CollapseBuilder H) (m n : Int) :
    (b.MaxConcurrentGroupRequests m).MaxConcurrentGroupRequests n
      = b.MaxConcurrentGroupRequests n
    ∧ ∀ calls : List (SetterCall H),
        (runCalls calls (b.MaxConcurrentGroupRequests m)).maxConcurrentGroupRequests ≠ none
        ∧ ((runCalls calls (b.MaxConcurrentGroupRequests m)).Source.1.2 = none →
            ∃ (mp : GoMap) (k : Int),
              (runCalls calls (b.MaxConcurrentGroupRequests m)).Source.1 = (Value.map mp, none)
              ∧ GoMap.get mp "max_concurrent_group_searches" = some (Value.int k)
              ∧ "max_concurrent_group_searches" ∈ GoMap.keys mp) := by
  refine ⟨rfl, fun calls => ?_⟩
  have hset : (runCalls calls (b.MaxConcurrentGroupRequests m)).maxConcurrentGroupRequests
      ≠ none :=
    runCalls_limit_set calls _ (by simp [CollapseBuilder.MaxConcurrentGroupRequests])
  refine ⟨hset, fun hsucc => ?_⟩
  rcases hmx : (runCalls calls (b.MaxConcurrentGroupRequests m)).maxConcurrentGroupRequests
    with _ | k
  · exact absurd hmx hset
  · rw [source_all_ok _ (all_ok_of_source_ok _ hsucc), sourceTail_of_some _ _ k hmx]
    have hget := GoMap.get_set_same
      (sourceBody (runCalls calls (b.MaxConcurrentGroupRequests m)))
      "max_concurrent_group_searches" (Value.int k)
    refine ⟨_, k, rfl, hget, ?_⟩
    rw [← GoMap.get_ne_none_iff, hget]
    simp

theorem max_last_write_wins_witness :
    ∃ (mp : GoMap) (k : Int),
      (runCalls [SetterCall.field "author", SetterCall.innerHit [hitA, hitB],
          SetterCall.maxConcurrentGroupRequests 0, SetterCall.innerHit []]
        ((NewCollapseBuilder FixedHit "user").MaxConcurrentGroupRequests 4)).Source.1
        = (Value.map mp, none)
      ∧ GoMap.get mp "max_concurrent_group_searches" = some (Value.int k)
      ∧ "max_concurrent_group_searches" ∈ GoMap.keys mp :=
  ((max_last_write_wins (NewCollapseBuilder FixedHit "user") 4 7).2
    [SetterCall.field "author", SetterCall.innerHit [hitA, hitB],
      SetterCall.maxConcurrentGroupRequests 0, SetterCall.innerHit []]).2 (by decide)

/-- C14: `Source()` reads the inner hits through their own `Source` results
only: two builders with the same field and the same concurrency limit, whose
inner-hit sequences have the same length and, index by index, the same
`Source` result (value and error), have the same `Source()` result. -/
theorem source_depends_on_results (b1 b2 : CollapseBuilder H)
    (hf : b1.field = b2.field)
    (hm : b1.maxConcurrentGroupRequests = b2.maxConcurrentGroupRequests)
    (hlen : b1.innerHits.length = b2.innerHits.length)
    (hpt : ∀ (i : Nat) (h1 : i < b1.innerHits.length) (h2 : i < b2.innerHits.length),
      InnerHit.Source (b1.innerHits.get ⟨i, h1⟩)
        = InnerHit.Source (b2.innerHits.get ⟨i, h2⟩)) :
    b1.Source.1 = b2.Source.1 := by
  apply source_congr b1 b2 hf hm
  apply List.ext_get
  · simpa using hlen
  · intro i h1 h2
    have h1' : i < b1.innerHits.length := by simpa using h1
    have h2' : i < b2.innerHits.length := by simpa using h2
    simpa using hpt i h1' h2'

theorem source_depends_on_results_witness :
    ((NewCollapseBuilder FixedHit "user").InnerHit [hitA, hitB]).innerHits
        ≠ ((NewCollapseBuilder FixedHit "user").InnerHit [hitATwin, hitB]).innerHits
    ∧ ((NewCollapseBuilder FixedHit "user").InnerHit [hitA, hitB]).Source.1
        = ((NewCollapseBuilder FixedHit "user").InnerHit [hitATwin, hitB]).Source.1 :=
  ⟨by decide,
   source_depends_on_results
    ((NewCollapseBuilder FixedHit "user").InnerHit [hitA, hitB])
    ((NewCollapseBuilder FixedHit "user").InnerHit [hitATwin, hitB]) rfl rfl rfl
    (fun i h1 _ =>
      match i, h1 with
      | 0, _ => rfl
      | 1, _ => rfl)⟩

end Setters

end Elastic
